import Mathlib

/-!
# WildTrace Dashboard — aggregation layer, shallow embedding

This file embeds the client-side aggregation functions of the WildTrace
dashboard (the pages `Environmental.js`, `Biological.js`, `Journal.js`)
and proves the specified properties about them.

Modelling conventions:
* JavaScript numbers are modelled as `ℚ` (the arithmetic involved is
  exact: sums, divisions by small constants, `min`/`max`).
* A numeric field that may be absent on a record is `Option ℚ`; the
  source's `d.field || 0` zero-substitution is `(d.field).getD 0`
  (for present values `0` the two agree, since `0 || 0 = 0` in JS).
* A record's `location_id` is `Option String` (`none` = absent/null).
* `Math.min(...xs.map f)` over a nonempty spread is a left fold of
  `min` over the mapped values, and dually for `Math.max`.
* Functions that the source guards with an early return on empty input
  (`if (filteredData.length === 0) return {}`) produce `Option` results,
  `none` on the empty list.
* Presentation-only fields (titles, image urls, weather strings, date
  formatting) are elided or kept as raw strings; they play no role in
  the aggregation logic.
-/

/-- A travel location (`Location` entity); only the fields the
aggregation layer reads are kept. -/
structure Location where
  id : String
  name : String
deriving Repr, DecidableEq

/-- One `EnvironmentalData` record (fields read by `Environmental.js`). -/
structure EnvRecord where
  location_id : Option String
  date : String
  temperature_avg : Option ℚ
  temperature_min : Option ℚ
  temperature_max : Option ℚ
  humidity : Option ℚ
  light_exposure : Option ℚ
  air_quality_index : Option ℚ
  noise_level : Option ℚ
deriving Repr, DecidableEq

/-- One `BiologicalData` record (fields read by `Biological.js`). -/
structure BioRecord where
  location_id : Option String
  date : String
  heart_rate_resting : Option ℚ
  heart_rate_variability : Option ℚ
  sleep_quality_score : Option ℚ
  sleep_duration : Option ℚ
  stress_level : Option ℚ
deriving Repr, DecidableEq

/-- One `JournalEntry` record (fields read by `Journal.js`). -/
structure JournalEntry where
  location_id : Option String
  date : String
  emotions : Option (List String)
  mood_score : Option ℚ
deriving Repr, DecidableEq

/-- `getLocationName` as it appears identically in `Environmental.js`
(lines 44–47), `Biological.js` (44–47) and `Journal.js` (60–63):
`locations.find(loc => loc.id === locationId)`, falling back to the
`"Unknown Location"` sentinel.  A `null`/`undefined` id is `none`, and
`loc.id === null` is false in JS, matching `some loc.id = none` being
false here. -/
def getLocationName (locations : List Location) (locationId : Option String) : String :=
  match locations.find? (fun loc => decide (some loc.id = locationId)) with
  | some location => location.name
  | none => "Unknown Location"

/-- The summation pattern
`records.reduce((sum, d) => sum + (d.f || 0), 0)` used by every
per-field average in `getMetricStats` / `getBiometricStats`. -/
def reduceSumOrZero {α : Type} (records : List α) (f : α → Option ℚ) : ℚ :=
  records.foldl (fun sum d => sum + (f d).getD 0) 0

/-- `Math.min(x, ...xs)` over a nonempty argument spread. -/
def mathMinList (x : ℚ) (xs : List ℚ) : ℚ := xs.foldl min x

/-- `Math.max(x, ...xs)` over a nonempty argument spread. -/
def mathMaxList (x : ℚ) (xs : List ℚ) : ℚ := xs.foldl max x

namespace Environmental

/-- `getFilteredData` from `Environmental.js` (lines 39–42): pass the
collection through unchanged when the scope is the `"all"` sentinel,
otherwise keep the records whose `location_id` strictly equals the
selected location id. -/
def getFilteredData (environmentalData : List EnvRecord) (selectedLocation : String) :
    List EnvRecord :=
  if selectedLocation = "all" then environmentalData
  else environmentalData.filter (fun data => decide (data.location_id = some selectedLocation))

/-- The `temperature` entry of `getMetricStats`: average of
`temperature_avg`, companion min over `temperature_min`, companion max
over `temperature_max`. -/
structure TemperatureStats where
  avg : ℚ
  min : ℚ
  max : ℚ
deriving Repr, DecidableEq

/-- A stats entry carrying only an average. -/
structure AvgStat where
  avg : ℚ
deriving Repr, DecidableEq

/-- The record returned by `getMetricStats` on nonempty input. -/
structure EnvStats where
  temperature : TemperatureStats
  humidity : AvgStat
  light : AvgStat
  airQuality : AvgStat
deriving Repr, DecidableEq

/-- `getMetricStats` from `Environmental.js` (lines 109–129).  The
source returns `{}` on an empty collection (modelled as `none`); on a
nonempty collection each average is the zero-substituted reduce divided
by the length, and the temperature min/max are
`Math.min(...map(d => d.temperature_min || 0))` and
`Math.max(...map(d => d.temperature_max || 0))`. -/
def getMetricStats (filteredData : List EnvRecord) : Option EnvStats :=
  match filteredData with
  | [] => none
  | d :: rest =>
    some
      { temperature :=
          { avg := reduceSumOrZero (d :: rest) (fun r => r.temperature_avg) /
              ((d :: rest).length : ℚ)
            min := mathMinList (d.temperature_min.getD 0)
              (rest.map (fun r => r.temperature_min.getD 0))
            max := mathMaxList (d.temperature_max.getD 0)
              (rest.map (fun r => r.temperature_max.getD 0)) }
        humidity :=
          { avg := reduceSumOrZero (d :: rest) (fun r => r.humidity) /
              ((d :: rest).length : ℚ) }
        light :=
          { avg := reduceSumOrZero (d :: rest) (fun r => r.light_exposure) /
              ((d :: rest).length : ℚ) }
        airQuality :=
          { avg := reduceSumOrZero (d :: rest) (fun r => r.air_quality_index) /
              ((d :: rest).length : ℚ) } }

/-- The inline linear rescale of `prepareRadarData` (`Environmental.js`
lines 84–95): `Math.min(100, (value / maxScale) * 100)`. -/
def normalize (value maxScale : ℚ) : ℚ :=
  min 100 ((value / maxScale) * 100)

/-- One row of `prepareRadarData`'s output, given the per-location
averages of the five metrics: temperature is rescaled against 40 °C,
light against 10000 lux, air quality against 200 AQI, noise against
100 dB, and humidity (already a 0–100 percentage) passes through. -/
structure RadarRow where
  location : String
  temperatureN : ℚ
  humidityN : ℚ
  lightN : ℚ
  airQualityN : ℚ
  noiseN : ℚ
deriving Repr, DecidableEq

/-- The normalization step of `prepareRadarData` (`Environmental.js`
lines 84–95) applied to one location's metric averages. -/
def radarRow (location : String) (tAvg hAvg lAvg aAvg nAvg : ℚ) : RadarRow :=
  { location := location
    temperatureN := normalize tAvg 40
    humidityN := hAvg
    lightN := normalize lAvg 10000
    airQualityN := normalize aAvg 200
    noiseN := normalize nAvg 100 }

end Environmental

namespace Biological

/-- `getFilteredData` from `Biological.js` (lines 39–42), identical in
shape to the environmental one. -/
def getFilteredData (biologicalData : List BioRecord) (selectedLocation : String) :
    List BioRecord :=
  if selectedLocation = "all" then biologicalData
  else biologicalData.filter (fun data => decide (data.location_id = some selectedLocation))

/-- `Math.min(100, (hrv / 50) * 100)` — the HRV sub-score of
`calculateHarmonyScore` (`Biological.js` line 72). -/
def hrvScore (hrv : ℚ) : ℚ := min 100 ((hrv / 50) * 100)

/-- `(sleep_quality_score / 10) * 100` (`Biological.js` line 73). -/
def sleepScore (sleep : ℚ) : ℚ := (sleep / 10) * 100

/-- `((10 - stress_level) / 10) * 100` (`Biological.js` line 74). -/
def stressScore (stress : ℚ) : ℚ := ((10 - stress) / 10) * 100

/-- `calculateHarmonyScore` from `Biological.js` (lines 70–77): the
unweighted mean of the three sub-scores.  The source reads the three
fields without a default, so a missing field poisons the result (`NaN`
in JS), modelled as `none`. -/
def calculateHarmonyScore (data : BioRecord) : Option ℚ := do
  let hrv ← data.heart_rate_variability
  let sleep ← data.sleep_quality_score
  let stress ← data.stress_level
  pure ((hrvScore hrv + sleepScore sleep + stressScore stress) / 3)

/-- The `heartRate` entry of `getBiometricStats`: average plus a
`[min, max]` range pair. -/
structure HeartRateStats where
  avg : ℚ
  range : ℚ × ℚ
deriving Repr, DecidableEq

/-- The `sleep` entry of `getBiometricStats`. -/
structure SleepStats where
  avg : ℚ
  avgDuration : ℚ
deriving Repr, DecidableEq

/-- The record returned by `getBiometricStats` on nonempty input. -/
structure BioStats where
  heartRate : HeartRateStats
  hrv : Environmental.AvgStat
  sleep : SleepStats
  stress : Environmental.AvgStat
deriving Repr, DecidableEq

/-- `getBiometricStats` from `Biological.js` (lines 79–102): `{}` on
empty input (modelled `none`); otherwise zero-substituted averages, and
a heart-rate range `[Math.min(...), Math.max(...)]` over the
zero-substituted `heart_rate_resting` values. -/
def getBiometricStats (filteredData : List BioRecord) : Option BioStats :=
  match filteredData with
  | [] => none
  | d :: rest =>
    some
      { heartRate :=
          { avg := reduceSumOrZero (d :: rest) (fun r => r.heart_rate_resting) /
              ((d :: rest).length : ℚ)
            range :=
              (mathMinList (d.heart_rate_resting.getD 0)
                 (rest.map (fun r => r.heart_rate_resting.getD 0)),
               mathMaxList (d.heart_rate_resting.getD 0)
                 (rest.map (fun r => r.heart_rate_resting.getD 0))) }
        hrv :=
          { avg := reduceSumOrZero (d :: rest) (fun r => r.heart_rate_variability) /
              ((d :: rest).length : ℚ) }
        sleep :=
          { avg := reduceSumOrZero (d :: rest) (fun r => r.sleep_quality_score) /
              ((d :: rest).length : ℚ)
            avgDuration := reduceSumOrZero (d :: rest) (fun r => r.sleep_duration) /
              ((d :: rest).length : ℚ) }
        stress :=
          { avg := reduceSumOrZero (d :: rest) (fun r => r.stress_level) /
              ((d :: rest).length : ℚ) } }

/-- The "Best Recovery" selection pattern of `Biological.js`
(lines 429–440): `const best = Math.max(...records.map(sel));
records.find(r => sel(r) === best)`.  On an empty collection the JS
spread gives `-Infinity`, `find` yields `undefined` and the page shows
"No data available"; both outcomes are `none` here. -/
def extremumMax {α : Type} (records : List α) (sel : α → ℚ) : Option α :=
  match records with
  | [] => none
  | r :: rs =>
    (r :: rs).find? (fun x => decide (sel x = mathMaxList (sel r) (rs.map sel)))

/-- The "Calmest Environment" selection pattern of `Biological.js`
(lines 475–486), dual to `extremumMax` with `Math.min`. -/
def extremumMin {α : Type} (records : List α) (sel : α → ℚ) : Option α :=
  match records with
  | [] => none
  | r :: rs =>
    (r :: rs).find? (fun x => decide (sel x = mathMinList (sel r) (rs.map sel)))

end Biological

namespace Journal

/-- The JS truthiness test applied to an optional number by
`entries.filter(entry => entry.mood_score)`: `undefined` and `0` are
falsy, every other (finite) number is truthy. -/
def truthyNum (v : Option ℚ) : Bool :=
  match v with
  | none => false
  | some x => decide (x ≠ 0)

/-- One point of `getMoodTrend`'s output (`Journal.js` lines 103–111).
The `date` is kept raw (the `format(..., 'MMM d')` call is
presentation). -/
structure MoodPoint where
  date : String
  mood : ℚ
  location : String
deriving Repr, DecidableEq

/-- `getMoodTrend` from `Journal.js` (lines 103–111):
`journalEntries.filter(entry => entry.mood_score).map(entry => ({...}))`.
After the truthiness filter the score is present and nonzero, so the
`getD 0` in the projection always returns the actual score. -/
def getMoodTrend (journalEntries : List JournalEntry) (locations : List Location) :
    List MoodPoint :=
  (journalEntries.filter (fun entry => truthyNum entry.mood_score)).map
    (fun entry =>
      { date := entry.date
        mood := entry.mood_score.getD 0
        location := getLocationName locations entry.location_id })

/-- One step of building the `emotionCounts` accumulator object
(`Journal.js` line 94): `emotionCounts[emotion] =
(emotionCounts[emotion] || 0) + 1`.  A JS object with string keys
enumerates in insertion order, so it is modelled as an association
list: bump the first entry holding the key, or append a fresh
`(key, 1)` entry at the end. -/
def bumpCount : List (String × Nat) → String → List (String × Nat)
  | [], e => [(e, 1)]
  | (k, c) :: rest, e =>
    if k = e then (k, c + 1) :: rest else (k, c) :: bumpCount rest e

/-- The double `forEach` of `getEmotionStats` (`Journal.js` lines
91–96): count every occurrence of every emotion across all entries
(`entry.emotions?.forEach` skips an absent list, i.e. `getD []`). -/
def countEmotions (journalEntries : List JournalEntry) : List (String × Nat) :=
  journalEntries.foldl
    (fun counts entry => (entry.emotions.getD []).foldl bumpCount counts) []

/-- `getEmotionStats` from `Journal.js` (lines 90–101):
`Object.entries(emotionCounts).sort(([,a],[,b]) => b - a).slice(0, 6)`.
The comparator orders by descending count; JS `sort` is stable, so the
stable `mergeSort` with relation "left count ≥ right count" models it,
and `slice(0, 6)` is `take 6`. -/
def getEmotionStats (journalEntries : List JournalEntry) : List (String × Nat) :=
  ((countEmotions journalEntries).mergeSort
    (fun p q => decide (q.2 ≤ p.2))).take 6

end Journal

/-! ### Sample records used by the concrete witnesses -/

/-- A sample environmental record at location `"loc1"`. -/
def envA : EnvRecord :=
  { location_id := some "loc1", date := "2024-01-01",
    temperature_avg := some 10, temperature_min := some 5,
    temperature_max := some 15, humidity := some 50,
    light_exposure := some 1000, air_quality_index := some 40,
    noise_level := some 30 }

/-- A sample environmental record at location `"loc2"`. -/
def envB : EnvRecord := { envA with location_id := some "loc2" }

/-- A sample biological record at location `"loc1"`. -/
def bioA : BioRecord :=
  { location_id := some "loc1", date := "2024-01-01",
    heart_rate_resting := some 60, heart_rate_variability := some 40,
    sleep_quality_score := some 8, sleep_duration := some 7,
    stress_level := some 3 }

/-- A sample biological record at location `"loc2"`. -/
def bioB : BioRecord := { bioA with location_id := some "loc2" }

/-- Lookup in the counts association list (0 when the key is absent),
the specification device for `bumpCount`. -/
def countOf : List (String × Nat) → String → Nat
  | [], _ => 0
  | (k, c) :: rest, e => if k = e then c else countOf rest e


/-- A sample journal entry with two emotions. -/
def entryJ1 : JournalEntry :=
  { location_id := some "loc1", date := "2024-01-01",
    emotions := some ["joy", "awe"], mood_score := some 7 }

/-- A sample journal entry with one emotion and no mood score. -/
def entryJ2 : JournalEntry :=
  { location_id := some "loc2", date := "2024-01-02",
    emotions := some ["joy"], mood_score := none }

/-! ## Helper lemmas -/

/-- The zero-substituted reduce is the sum of the zero-substituted
values (foldl form, generalized over the initial accumulator). -/
theorem foldl_add_getD {α : Type} (f : α → Option ℚ) :
    ∀ (l : List α) (init : ℚ),
      l.foldl (fun sum d => sum + (f d).getD 0) init =
        init + (l.map (fun d => (f d).getD 0)).sum := by
  intro l
  induction l with
  | nil => intro init; simp
  | cons a t ih =>
    intro init
    simp only [List.foldl_cons, List.map_cons, List.sum_cons, ih]
    ring

/-- `reduceSumOrZero` equals the sum over the mapped present-or-zero
values. -/
theorem reduceSumOrZero_eq {α : Type} (f : α → Option ℚ) (l : List α) :
    reduceSumOrZero l f = (l.map (fun d => (f d).getD 0)).sum := by
  simp [reduceSumOrZero, foldl_add_getD]

/-- A nonempty `Math.min` spread returns one of its arguments. -/
theorem mathMinList_mem : ∀ (xs : List ℚ) (x : ℚ), mathMinList x xs ∈ x :: xs := by
  intro xs
  induction xs with
  | nil => intro x; simp [mathMinList]
  | cons a t ih =>
    intro x
    have key : mathMinList x (a :: t) = mathMinList (min x a) t := rfl
    rcases List.mem_cons.mp (ih (min x a)) with h1 | h1
    · rcases min_choice x a with hm | hm
      · rw [key, h1, hm]; exact List.mem_cons_self x (a :: t)
      · rw [key, h1, hm]
        exact List.mem_cons_of_mem x (List.mem_cons_self a t)
    · rw [key]
      exact List.mem_cons_of_mem x (List.mem_cons_of_mem a h1)

/-- A nonempty `Math.min` spread bounds every argument from below. -/
theorem mathMinList_le : ∀ (xs : List ℚ) (x : ℚ), ∀ y ∈ x :: xs, mathMinList x xs ≤ y := by
  intro xs
  induction xs with
  | nil =>
    intro x y hy
    rcases List.mem_cons.mp hy with h | h
    · subst h; exact le_refl _
    · cases h
  | cons a t ih =>
    intro x y hy
    have key : mathMinList x (a :: t) = mathMinList (min x a) t := rfl
    have hhead := ih (min x a) (min x a) (List.mem_cons_self _ _)
    rcases List.mem_cons.mp hy with h | h
    · subst h
      rw [key]
      exact le_trans hhead (min_le_left _ _)
    · rcases List.mem_cons.mp h with h1 | h1
      · subst h1
        rw [key]
        exact le_trans hhead (min_le_right _ _)
      · rw [key]
        exact ih (min x a) y (List.mem_cons_of_mem _ h1)

/-- A nonempty `Math.max` spread returns one of its arguments. -/
theorem mathMaxList_mem : ∀ (xs : List ℚ) (x : ℚ), mathMaxList x xs ∈ x :: xs := by
  intro xs
  induction xs with
  | nil => intro x; simp [mathMaxList]
  | cons a t ih =>
    intro x
    have key : mathMaxList x (a :: t) = mathMaxList (max x a) t := rfl
    rcases List.mem_cons.mp (ih (max x a)) with h1 | h1
    · rcases max_choice x a with hm | hm
      · rw [key, h1, hm]; exact List.mem_cons_self x (a :: t)
      · rw [key, h1, hm]
        exact List.mem_cons_of_mem x (List.mem_cons_self a t)
    · rw [key]
      exact List.mem_cons_of_mem x (List.mem_cons_of_mem a h1)

/-- A nonempty `Math.max` spread bounds every argument from above. -/
theorem le_mathMaxList : ∀ (xs : List ℚ) (x : ℚ), ∀ y ∈ x :: xs, y ≤ mathMaxList x xs := by
  intro xs
  induction xs with
  | nil =>
    intro x y hy
    rcases List.mem_cons.mp hy with h | h
    · subst h; exact le_refl _
    · cases h
  | cons a t ih =>
    intro x y hy
    have key : mathMaxList x (a :: t) = mathMaxList (max x a) t := rfl
    have hhead := ih (max x a) (max x a) (List.mem_cons_self _ _)
    rcases List.mem_cons.mp hy with h | h
    · subst h
      rw [key]
      exact le_trans (le_max_left _ _) hhead
    · rcases List.mem_cons.mp h with h1 | h1
      · subst h1
        rw [key]
        exact le_trans (le_max_right _ _) hhead
      · rw [key]
        exact ih (max x a) y (List.mem_cons_of_mem _ h1)

/-! ## Claim C5 -/

/-- **C5.** For every fixed `maxScale > 0`, `normalize(v, maxScale) =
min(100, (v / maxScale) * 100)` is monotonically non-decreasing in `v`,
and for every `v ≥ 0` its result is at most 100. -/
theorem normalize_monotone_and_clamped (maxScale v v₁ v₂ : ℚ)
    (hm : 0 < maxScale) (h12 : v₁ ≤ v₂) (hv : 0 ≤ v) :
    Environmental.normalize v₁ maxScale ≤ Environmental.normalize v₂ maxScale ∧
    Environmental.normalize v maxScale ≤ 100 := by
  constructor
  · unfold Environmental.normalize
    apply min_le_min (le_refl (100 : ℚ))
    have hdiv : v₁ / maxScale ≤ v₂ / maxScale := by
      apply div_le_div_of_nonneg_right h12 hm.le
    exact mul_le_mul_of_nonneg_right hdiv (by norm_num)
  · exact min_le_left _ _

/-- Witness for C5 at `maxScale = 40`, `v = 30`, `v₁ = 20`, `v₂ = 60`. -/
theorem normalize_monotone_and_clamped_witness :
    Environmental.normalize 20 40 ≤ Environmental.normalize 60 40 ∧
    Environmental.normalize 30 40 ≤ 100 :=
  normalize_monotone_and_clamped 40 30 20 60 (by norm_num) (by norm_num) (by norm_num)

/-! ## Claim C6 -/

/-- **C6.** `calculateHarmonyScore` on a record with
`heart_rate_variability = 50`, `sleep_quality_score = 10`,
`stress_level = 0` yields exactly 100, and on a record with
`heart_rate_variability = 0`, `sleep_quality_score = 0`,
`stress_level = 10` yields exactly 0. -/
theorem harmony_boundary_values :
    Biological.calculateHarmonyScore
      { location_id := none, date := "", heart_rate_resting := none,
        heart_rate_variability := some 50, sleep_quality_score := some 10,
        sleep_duration := none, stress_level := some 0 } = some 100 ∧
    Biological.calculateHarmonyScore
      { location_id := none, date := "", heart_rate_resting := none,
        heart_rate_variability := some 0, sleep_quality_score := some 0,
        sleep_duration := none, stress_level := some 10 } = some 0 := by
  constructor <;>
    · simp only [Biological.calculateHarmonyScore, Biological.hrvScore,
        Biological.sleepScore, Biological.stressScore, Option.bind_some, bind, Option.bind]
      norm_num

/-! ## Claim C7 -/

/-- **C7.** For every biological record with present fields satisfying
`heart_rate_variability ≥ 0`, `sleep_quality_score ∈ [0,10]` and
`stress_level ∈ [0,10]`, `calculateHarmonyScore` returns a score in
`[0, 100]` (the HRV sub-score is capped at 100 but has no floor clamp,
so the lower bound uses the non-negativity hypothesis). -/
theorem harmony_score_bounded (d : BioRecord) (hrv sleep stress : ℚ)
    (hh : d.heart_rate_variability = some hrv)
    (hs : d.sleep_quality_score = some sleep)
    (ht : d.stress_level = some stress)
    (hrv0 : 0 ≤ hrv) (hs0 : 0 ≤ sleep) (hs10 : sleep ≤ 10)
    (hst0 : 0 ≤ stress) (hst10 : stress ≤ 10) :
    ∃ score, Biological.calculateHarmonyScore d = some score ∧
      0 ≤ score ∧ score ≤ 100 := by
  refine ⟨(Biological.hrvScore hrv + Biological.sleepScore sleep +
      Biological.stressScore stress) / 3, ?_, ?_, ?_⟩
  · simp [Biological.calculateHarmonyScore, hh, hs, ht]
  · have e2 : Biological.sleepScore sleep = 10 * sleep := by
      unfold Biological.sleepScore; ring
    have e3 : Biological.stressScore stress = 100 - 10 * stress := by
      unfold Biological.stressScore; ring
    have h1 : 0 ≤ Biological.hrvScore hrv :=
      le_min (by norm_num) (mul_nonneg (div_nonneg hrv0 (by norm_num)) (by norm_num))
    rw [e2, e3]
    linarith
  · have e2 : Biological.sleepScore sleep = 10 * sleep := by
      unfold Biological.sleepScore; ring
    have e3 : Biological.stressScore stress = 100 - 10 * stress := by
      unfold Biological.stressScore; ring
    have h2 : Biological.hrvScore hrv ≤ 100 := min_le_left _ _
    rw [e2, e3]
    linarith

/-- Witness for C7 at a concrete in-range record. -/
theorem harmony_score_bounded_witness :
    ∃ score, Biological.calculateHarmonyScore
      { location_id := none, date := "", heart_rate_resting := none,
        heart_rate_variability := some 25, sleep_quality_score := some 5,
        sleep_duration := none, stress_level := some 5 } = some score ∧
      0 ≤ score ∧ score ≤ 100 :=
  harmony_score_bounded _ 25 5 5 rfl rfl rfl (by norm_num) (by norm_num)
    (by norm_num) (by norm_num) (by norm_num)

/-! ## Claim C3 -/

/-- **C3.** `getFilteredData` with scope `"all"` returns the input
sequence unchanged; with a specific scope it returns exactly the
subsequence of records whose `location_id` equals the scope (order
preserved, as a sublist of the input), and the empty sequence when no
record matches.  Stated for both copies of the function
(`Environmental.js` and `Biological.js`). -/
theorem filter_by_location_spec (env : List EnvRecord) (bio : List BioRecord)
    (scope : String) (hscope : scope ≠ "all") :
    Environmental.getFilteredData env "all" = env ∧
    Biological.getFilteredData bio "all" = bio ∧
    (Environmental.getFilteredData env scope).Sublist env ∧
    (∀ r, r ∈ Environmental.getFilteredData env scope ↔
      r ∈ env ∧ r.location_id = some scope) ∧
    ((∀ r ∈ env, r.location_id ≠ some scope) →
      Environmental.getFilteredData env scope = []) ∧
    (Biological.getFilteredData bio scope).Sublist bio ∧
    (∀ r, r ∈ Biological.getFilteredData bio scope ↔
      r ∈ bio ∧ r.location_id = some scope) ∧
    ((∀ r ∈ bio, r.location_id ≠ some scope) →
      Biological.getFilteredData bio scope = []) := by
  have he : Environmental.getFilteredData env scope =
      env.filter (fun data => decide (data.location_id = some scope)) :=
    if_neg hscope
  have hb : Biological.getFilteredData bio scope =
      bio.filter (fun data => decide (data.location_id = some scope)) :=
    if_neg hscope
  refine ⟨if_pos rfl, if_pos rfl, ?_, ?_, ?_, ?_, ?_, ?_⟩
  · rw [he]; exact List.filter_sublist env
  · intro r
    rw [he, List.mem_filter]
    simp
  · intro h
    rw [he, List.filter_eq_nil_iff]
    intro a ha
    simpa using h a ha
  · rw [hb]; exact List.filter_sublist bio
  · intro r
    rw [hb, List.mem_filter]
    simp
  · intro h
    rw [hb, List.filter_eq_nil_iff]
    intro a ha
    simpa using h a ha

/-- Witness for C3 on two-record collections, at a matching scope and
at a scope matching nothing. -/
theorem filter_by_location_spec_witness :
    Environmental.getFilteredData [envA, envB] "all" = [envA, envB] ∧
    Biological.getFilteredData [bioA, bioB] "all" = [bioA, bioB] ∧
    (Environmental.getFilteredData [envA, envB] "loc1").Sublist [envA, envB] ∧
    (envA ∈ Environmental.getFilteredData [envA, envB] "loc1" ↔
      envA ∈ [envA, envB] ∧ envA.location_id = some "loc1") ∧
    (bioB ∈ Biological.getFilteredData [bioA, bioB] "loc1" ↔
      bioB ∈ [bioA, bioB] ∧ bioB.location_id = some "loc1") ∧
    Environmental.getFilteredData [envA, envB] "zzz" = [] ∧
    Biological.getFilteredData [bioA, bioB] "zzz" = [] := by
  have h1 := filter_by_location_spec [envA, envB] [bioA, bioB] "loc1" (by decide)
  have h2 := filter_by_location_spec [envA, envB] [bioA, bioB] "zzz" (by decide)
  exact ⟨h1.1, h1.2.1, h1.2.2.1, h1.2.2.2.1 envA, h1.2.2.2.2.2.2.1 bioB,
    h2.2.2.2.2.1 (by decide), h2.2.2.2.2.2.2.2 (by decide)⟩

/-! ## Claim C4 -/

/-- **C4.** `getLocationName` returns the name of the first matching
location when one exists (the input decomposes as `l₁ ++ loc :: l₂`
with no match in `l₁`), and the sentinel `"Unknown Location"` for any
id with no match, including the absent (`null`/`undefined`) id; being
a total function, it never raises. -/
theorem resolve_location_name_spec (locations : List Location)
    (locationId : Option String) :
    getLocationName locations none = "Unknown Location" ∧
    ((∀ loc ∈ locations, some loc.id ≠ locationId) →
      getLocationName locations locationId = "Unknown Location") ∧
    ((∃ loc ∈ locations, some loc.id = locationId) →
      ∃ loc l₁ l₂, locations = l₁ ++ loc :: l₂ ∧ some loc.id = locationId ∧
        (∀ x ∈ l₁, some x.id ≠ locationId) ∧
        getLocationName locations locationId = loc.name) := by
  refine ⟨?_, ?_, ?_⟩
  · have hnone : locations.find?
        (fun loc => decide (some loc.id = (none : Option String))) = none := by
      rw [List.find?_eq_none]
      intro x _
      simp
    unfold getLocationName
    rw [hnone]
  · intro h
    have hnone : locations.find?
        (fun loc => decide (some loc.id = locationId)) = none := by
      rw [List.find?_eq_none]
      intro x hx
      simpa using h x hx
    unfold getLocationName
    rw [hnone]
  · rintro ⟨loc, hmem, hid⟩
    have hsome : (locations.find?
        (fun l => decide (some l.id = locationId))).isSome := by
      rw [List.find?_isSome]
      exact ⟨loc, hmem, by simpa using hid⟩
    obtain ⟨res, hres⟩ := Option.isSome_iff_exists.mp hsome
    obtain ⟨hp, as, bs, hsplit, hpre⟩ := List.find?_eq_some.mp hres
    refine ⟨res, as, bs, hsplit, by simpa using hp, ?_, ?_⟩
    · intro x hx
      have := hpre x hx
      simpa using this
    · unfold getLocationName
      rw [hres]

/-- Witness for C4 on a two-location list: an absent id, an unmatched
id, and a matched id. -/
theorem resolve_location_name_spec_witness :
    getLocationName [⟨"loc1", "Paris"⟩, ⟨"loc2", "Oslo"⟩] none = "Unknown Location" ∧
    getLocationName [⟨"loc1", "Paris"⟩, ⟨"loc2", "Oslo"⟩] (some "zzz") = "Unknown Location" ∧
    (∃ loc l₁ l₂, ([⟨"loc1", "Paris"⟩, ⟨"loc2", "Oslo"⟩] : List Location) =
        l₁ ++ loc :: l₂ ∧ some loc.id = some "loc2" ∧
        (∀ x ∈ l₁, some x.id ≠ some "loc2") ∧
        getLocationName [⟨"loc1", "Paris"⟩, ⟨"loc2", "Oslo"⟩] (some "loc2") = loc.name) :=
  ⟨(resolve_location_name_spec [⟨"loc1", "Paris"⟩, ⟨"loc2", "Oslo"⟩] none).1,
   (resolve_location_name_spec [⟨"loc1", "Paris"⟩, ⟨"loc2", "Oslo"⟩]
      (some "zzz")).2.1 (by decide),
   (resolve_location_name_spec [⟨"loc1", "Paris"⟩, ⟨"loc2", "Oslo"⟩]
      (some "loc2")).2.2 ⟨⟨"loc2", "Oslo"⟩, by decide, rfl⟩⟩

/-! ## Claim C1 -/

/-- **C1.** On every nonempty record sequence, each average computed by
the metric summaries equals the sum over all records of the field's
present-or-zero value, divided by the record count: missing values are
substituted by zero, not skipped.  Stated for all averaged fields of
`getMetricStats` (`Environmental.js`) and `getBiometricStats`
(`Biological.js`). -/
theorem summarize_metric_avg (env : List EnvRecord) (bio : List BioRecord)
    (henv : env ≠ []) (hbio : bio ≠ []) :
    ∃ es bs, Environmental.getMetricStats env = some es ∧
      Biological.getBiometricStats bio = some bs ∧
      es.temperature.avg =
        (env.map (fun d => d.temperature_avg.getD 0)).sum / (env.length : ℚ) ∧
      es.humidity.avg =
        (env.map (fun d => d.humidity.getD 0)).sum / (env.length : ℚ) ∧
      es.light.avg =
        (env.map (fun d => d.light_exposure.getD 0)).sum / (env.length : ℚ) ∧
      es.airQuality.avg =
        (env.map (fun d => d.air_quality_index.getD 0)).sum / (env.length : ℚ) ∧
      bs.heartRate.avg =
        (bio.map (fun d => d.heart_rate_resting.getD 0)).sum / (bio.length : ℚ) ∧
      bs.hrv.avg =
        (bio.map (fun d => d.heart_rate_variability.getD 0)).sum / (bio.length : ℚ) ∧
      bs.sleep.avg =
        (bio.map (fun d => d.sleep_quality_score.getD 0)).sum / (bio.length : ℚ) ∧
      bs.sleep.avgDuration =
        (bio.map (fun d => d.sleep_duration.getD 0)).sum / (bio.length : ℚ) ∧
      bs.stress.avg =
        (bio.map (fun d => d.stress_level.getD 0)).sum / (bio.length : ℚ) := by
  cases env with
  | nil => cases henv rfl
  | cons d rest =>
    cases bio with
    | nil => cases hbio rfl
    | cons b brest =>
      refine ⟨_, _, rfl, rfl, ?_, ?_, ?_, ?_, ?_, ?_, ?_, ?_, ?_⟩ <;>
        simp [Environmental.getMetricStats, Biological.getBiometricStats,
          reduceSumOrZero_eq]

/-- Witness for C1 on concrete two-record collections. -/
theorem summarize_metric_avg_witness :
    ∃ es bs, Environmental.getMetricStats [envA, envB] = some es ∧
      Biological.getBiometricStats [bioA, bioB] = some bs ∧
      es.temperature.avg =
        ([envA, envB].map (fun d => d.temperature_avg.getD 0)).sum /
          (([envA, envB] : List EnvRecord).length : ℚ) ∧
      es.humidity.avg =
        ([envA, envB].map (fun d => d.humidity.getD 0)).sum /
          (([envA, envB] : List EnvRecord).length : ℚ) ∧
      es.light.avg =
        ([envA, envB].map (fun d => d.light_exposure.getD 0)).sum /
          (([envA, envB] : List EnvRecord).length : ℚ) ∧
      es.airQuality.avg =
        ([envA, envB].map (fun d => d.air_quality_index.getD 0)).sum /
          (([envA, envB] : List EnvRecord).length : ℚ) ∧
      bs.heartRate.avg =
        ([bioA, bioB].map (fun d => d.heart_rate_resting.getD 0)).sum /
          (([bioA, bioB] : List BioRecord).length : ℚ) ∧
      bs.hrv.avg =
        ([bioA, bioB].map (fun d => d.heart_rate_variability.getD 0)).sum /
          (([bioA, bioB] : List BioRecord).length : ℚ) ∧
      bs.sleep.avg =
        ([bioA, bioB].map (fun d => d.sleep_quality_score.getD 0)).sum /
          (([bioA, bioB] : List BioRecord).length : ℚ) ∧
      bs.sleep.avgDuration =
        ([bioA, bioB].map (fun d => d.sleep_duration.getD 0)).sum /
          (([bioA, bioB] : List BioRecord).length : ℚ) ∧
      bs.stress.avg =
        ([bioA, bioB].map (fun d => d.stress_level.getD 0)).sum /
          (([bioA, bioB] : List BioRecord).length : ℚ) :=
  summarize_metric_avg [envA, envB] [bioA, bioB]
    (List.cons_ne_nil _ _) (List.cons_ne_nil _ _)

/-! ## Claim C2 -/

/-- **C2.** On every nonempty record sequence, the `min`/`max`
companions of the temperature summary are the true minimum of the
(present-or-zero) `temperature_min` values and the true maximum of the
(present-or-zero) `temperature_max` values over the whole set — each
bounds every record's companion value and is attained by some record —
rather than the min/max of the averaged `temperature_avg` field. -/
theorem summarize_minmax_companion (env : List EnvRecord) (henv : env ≠ []) :
    ∃ es, Environmental.getMetricStats env = some es ∧
      (∀ d ∈ env, es.temperature.min ≤ d.temperature_min.getD 0) ∧
      (∃ d ∈ env, es.temperature.min = d.temperature_min.getD 0) ∧
      (∀ d ∈ env, d.temperature_max.getD 0 ≤ es.temperature.max) ∧
      (∃ d ∈ env, es.temperature.max = d.temperature_max.getD 0) := by
  cases env with
  | nil => cases henv rfl
  | cons d rest =>
    refine ⟨_, rfl, ?_, ?_, ?_, ?_⟩
    · intro r hr
      have hmem : r.temperature_min.getD 0 ∈
          (d.temperature_min.getD 0) ::
            (rest.map (fun x => x.temperature_min.getD 0)) := by
        rcases List.mem_cons.mp hr with h | h
        · subst h; exact List.mem_cons_self _ _
        · exact List.mem_cons_of_mem _ (List.mem_map_of_mem _ h)
      exact mathMinList_le _ _ _ hmem
    · have hmem := mathMinList_mem
        (rest.map (fun x => x.temperature_min.getD 0)) (d.temperature_min.getD 0)
      rcases List.mem_cons.mp hmem with h | h
      · exact ⟨d, List.mem_cons_self _ _, h⟩
      · obtain ⟨a, ha, heq⟩ := List.mem_map.mp h
        exact ⟨a, List.mem_cons_of_mem _ ha, heq.symm⟩
    · intro r hr
      have hmem : r.temperature_max.getD 0 ∈
          (d.temperature_max.getD 0) ::
            (rest.map (fun x => x.temperature_max.getD 0)) := by
        rcases List.mem_cons.mp hr with h | h
        · subst h; exact List.mem_cons_self _ _
        · exact List.mem_cons_of_mem _ (List.mem_map_of_mem _ h)
      exact le_mathMaxList _ _ _ hmem
    · have hmem := mathMaxList_mem
        (rest.map (fun x => x.temperature_max.getD 0)) (d.temperature_max.getD 0)
      rcases List.mem_cons.mp hmem with h | h
      · exact ⟨d, List.mem_cons_self _ _, h⟩
      · obtain ⟨a, ha, heq⟩ := List.mem_map.mp h
        exact ⟨a, List.mem_cons_of_mem _ ha, heq.symm⟩

/-- Witness for C2 on a concrete two-record collection. -/
theorem summarize_minmax_companion_witness :
    ∃ es, Environmental.getMetricStats [envA, envB] = some es ∧
      (∀ d ∈ [envA, envB], es.temperature.min ≤ d.temperature_min.getD 0) ∧
      (∃ d ∈ [envA, envB], es.temperature.min = d.temperature_min.getD 0) ∧
      (∀ d ∈ [envA, envB], d.temperature_max.getD 0 ≤ es.temperature.max) ∧
      (∃ d ∈ [envA, envB], es.temperature.max = d.temperature_max.getD 0) :=
  summarize_minmax_companion [envA, envB] (List.cons_ne_nil _ _)

/-! ## Claim C8 -/

/-- `find?` with an attainable predicate value returns the first
element achieving it: the list splits around the result with no
earlier match. -/
theorem find_first_achieves {α : Type} (l : List α) (sel : α → ℚ) (m : ℚ)
    (hex : ∃ a ∈ l, sel a = m) :
    ∃ r l₁ l₂, l.find? (fun x => decide (sel x = m)) = some r ∧ sel r = m ∧
      l = l₁ ++ r :: l₂ ∧ (∀ x ∈ l₁, sel x ≠ m) := by
  have hsome : (l.find? (fun x => decide (sel x = m))).isSome := by
    rw [List.find?_isSome]
    obtain ⟨a, ha, he⟩ := hex
    exact ⟨a, ha, by simpa using he⟩
  obtain ⟨res, hres⟩ := Option.isSome_iff_exists.mp hsome
  obtain ⟨hp, as, bs, hsplit, hpre⟩ := List.find?_eq_some.mp hres
  exact ⟨res, as, bs, hres, by simpa using hp, hsplit,
    fun x hx => by simpa using hpre x hx⟩

/-- **C8.** The `Math.max(...)`/`find` (resp. `Math.min(...)`/`find`)
selection of `Biological.js` returns the FIRST record (in iteration
order) whose selector value equals the overall maximum (resp.
minimum) — on ties not the last — and on the empty sequence returns
`undefined` ("no data"), not an exception and not a default. -/
theorem harmony_extremum_spec {α : Type} (sel : α → ℚ) (l : List α) :
    (l = [] → Biological.extremumMax l sel = none ∧
      Biological.extremumMin l sel = none) ∧
    (l ≠ [] →
      (∃ r l₁ l₂, Biological.extremumMax l sel = some r ∧ l = l₁ ++ r :: l₂ ∧
        (∀ x ∈ l, sel x ≤ sel r) ∧ (∀ x ∈ l₁, sel x < sel r)) ∧
      (∃ r l₁ l₂, Biological.extremumMin l sel = some r ∧ l = l₁ ++ r :: l₂ ∧
        (∀ x ∈ l, sel r ≤ sel x) ∧ (∀ x ∈ l₁, sel r < sel x))) := by
  constructor
  · intro h
    subst h
    exact ⟨rfl, rfl⟩
  · intro h
    cases l with
    | nil => cases h rfl
    | cons d rest =>
      constructor
      · have hub : ∀ x ∈ d :: rest, sel x ≤ mathMaxList (sel d) (rest.map sel) := by
          intro x hx
          apply le_mathMaxList
          rcases List.mem_cons.mp hx with h1 | h1
          · subst h1; exact List.mem_cons_self _ _
          · exact List.mem_cons_of_mem _ (List.mem_map_of_mem _ h1)
        have hattained : ∃ a ∈ d :: rest,
            sel a = mathMaxList (sel d) (rest.map sel) := by
          have hmem := mathMaxList_mem (rest.map sel) (sel d)
          rcases List.mem_cons.mp hmem with h1 | h1
          · exact ⟨d, List.mem_cons_self _ _, h1.symm⟩
          · obtain ⟨a, ha, heq⟩ := List.mem_map.mp h1
            exact ⟨a, List.mem_cons_of_mem _ ha, heq⟩
        obtain ⟨r, l₁, l₂, hfind, hselr, hsplit, hne⟩ :=
          find_first_achieves (d :: rest) sel
            (mathMaxList (sel d) (rest.map sel)) hattained
        refine ⟨r, l₁, l₂, hfind, hsplit, ?_, ?_⟩
        · intro x hx
          rw [hselr]
          exact hub x hx
        · intro x hx
          have hxl : x ∈ d :: rest := by
            rw [hsplit]
            exact List.mem_append_left _ hx
          have hle : sel x ≤ sel r := by
            rw [hselr]
            exact hub x hxl
          exact lt_of_le_of_ne hle (fun hcontra => hne x hx (hcontra.trans hselr))
      · have hlb : ∀ x ∈ d :: rest, mathMinList (sel d) (rest.map sel) ≤ sel x := by
          intro x hx
          apply mathMinList_le
          rcases List.mem_cons.mp hx with h1 | h1
          · subst h1; exact List.mem_cons_self _ _
          · exact List.mem_cons_of_mem _ (List.mem_map_of_mem _ h1)
        have hattained : ∃ a ∈ d :: rest,
            sel a = mathMinList (sel d) (rest.map sel) := by
          have hmem := mathMinList_mem (rest.map sel) (sel d)
          rcases List.mem_cons.mp hmem with h1 | h1
          · exact ⟨d, List.mem_cons_self _ _, h1.symm⟩
          · obtain ⟨a, ha, heq⟩ := List.mem_map.mp h1
            exact ⟨a, List.mem_cons_of_mem _ ha, heq⟩
        obtain ⟨r, l₁, l₂, hfind, hselr, hsplit, hne⟩ :=
          find_first_achieves (d :: rest) sel
            (mathMinList (sel d) (rest.map sel)) hattained
        refine ⟨r, l₁, l₂, hfind, hsplit, ?_, ?_⟩
        · intro x hx
          rw [hselr]
          exact hlb x hx
        · intro x hx
          have hxl : x ∈ d :: rest := by
            rw [hsplit]
            exact List.mem_append_left _ hx
          have hle : sel r ≤ sel x := by
            rw [hselr]
            exact hlb x hxl
          exact lt_of_le_of_ne hle
            (fun hcontra => hne x hx (hcontra.symm.trans hselr))

/-- Witness for C8: the empty sequence, and the spec's tie example
`[3, 5, 5, 1]` under the identity selector. -/
theorem harmony_extremum_spec_witness :
    (Biological.extremumMax ([] : List ℚ) (fun x => x) = none ∧
     Biological.extremumMin ([] : List ℚ) (fun x => x) = none) ∧
    ((∃ r l₁ l₂, Biological.extremumMax [(3 : ℚ), 5, 5, 1] (fun x => x) = some r ∧
        [(3 : ℚ), 5, 5, 1] = l₁ ++ r :: l₂ ∧
        (∀ x ∈ [(3 : ℚ), 5, 5, 1], x ≤ r) ∧ (∀ x ∈ l₁, x < r)) ∧
     (∃ r l₁ l₂, Biological.extremumMin [(3 : ℚ), 5, 5, 1] (fun x => x) = some r ∧
        [(3 : ℚ), 5, 5, 1] = l₁ ++ r :: l₂ ∧
        (∀ x ∈ [(3 : ℚ), 5, 5, 1], r ≤ x) ∧ (∀ x ∈ l₁, r < x))) :=
  ⟨(harmony_extremum_spec (fun x => x) ([] : List ℚ)).1 rfl,
   (harmony_extremum_spec (fun x => x) [(3 : ℚ), 5, 5, 1]).2 (by decide)⟩

/-! ## Claim C10 -/

/-- JS truthiness of an optional number, characterised. -/
theorem truthyNum_iff (v : Option ℚ) :
    Journal.truthyNum v = true ↔ ∃ m, v = some m ∧ m ≠ 0 := by
  cases v with
  | none => simp [Journal.truthyNum]
  | some m => simp [Journal.truthyNum]

/-- **C10.** `getMoodTrend` projects exactly those entries whose
`mood_score` is present and nonzero (missing or zero scores are
excluded — the zero-substitution averaging policy does not apply
here), preserving the input order: the output is the order-preserving
projection of a sublist `kept` of the input characterised by that
predicate. -/
theorem mood_trend_spec (journalEntries : List JournalEntry)
    (locations : List Location) :
    ∃ kept : List JournalEntry,
      kept.Sublist journalEntries ∧
      (∀ e, e ∈ kept ↔ e ∈ journalEntries ∧
        ∃ m, e.mood_score = some m ∧ m ≠ 0) ∧
      Journal.getMoodTrend journalEntries locations =
        kept.map (fun e =>
          { date := e.date, mood := e.mood_score.getD 0,
            location := getLocationName locations e.location_id }) := by
  refine ⟨journalEntries.filter (fun e => Journal.truthyNum e.mood_score),
    List.filter_sublist _, ?_, rfl⟩
  intro e
  rw [List.mem_filter]
  exact and_congr_right (fun _ => truthyNum_iff e.mood_score)

/-! ## Claim C9 -/

/-- `bumpCount` increments exactly the bumped key's count. -/
theorem countOf_bumpCount (counts : List (String × Nat)) (e k : String) :
    countOf (Journal.bumpCount counts e) k =
      if k = e then countOf counts k + 1 else countOf counts k := by
  induction counts with
  | nil =>
    by_cases hk : k = e
    · subst hk
      simp [Journal.bumpCount, countOf]
    · have hek : ¬ e = k := fun h => hk h.symm
      simp [Journal.bumpCount, countOf, hk, hek]
  | cons p rest ih =>
    obtain ⟨k', c⟩ := p
    by_cases hke : k' = e
    · subst hke
      by_cases hk : k' = k
      · subst hk
        simp [Journal.bumpCount, countOf]
      · have hkk : ¬ k = k' := fun h => hk h.symm
        simp [Journal.bumpCount, countOf, hk, hkk]
    · by_cases hk : k' = k
      · subst hk
        simp [Journal.bumpCount, countOf, hke]
      · have hkk : ¬ k = k' := fun h => hk h.symm
        simp [Journal.bumpCount, countOf, hke, hk, ih]

/-- Folding `bumpCount` over one entry's emotion list adds that list's
occurrence count of every key. -/
theorem countOf_foldl_bumpCount (es : List String) :
    ∀ (counts : List (String × Nat)) (k : String),
      countOf (es.foldl Journal.bumpCount counts) k =
        countOf counts k + es.count k := by
  induction es with
  | nil => intro counts k; simp
  | cons a t ih =>
    intro counts k
    simp only [List.foldl_cons]
    rw [ih, countOf_bumpCount, List.count_cons]
    by_cases hk : k = a
    · subst hk
      simp
      omega
    · have hbeq : (a == k) = false := by
        apply beq_eq_false_iff_ne.mpr
        exact fun h => hk h.symm
      simp [hk, hbeq]

/-- Folding the per-entry bump over a list of entries accumulates each
entry's occurrence count. -/
theorem countOf_foldl_entries (entries : List JournalEntry) :
    ∀ (counts : List (String × Nat)) (k : String),
      countOf (entries.foldl
        (fun cs en => (en.emotions.getD []).foldl Journal.bumpCount cs) counts) k =
        countOf counts k +
          (entries.map (fun en => (en.emotions.getD []).count k)).sum := by
  induction entries with
  | nil => intro counts k; simp
  | cons a t ih =>
    intro counts k
    simp only [List.foldl_cons, List.map_cons, List.sum_cons]
    rw [ih, countOf_foldl_bumpCount]
    omega

/-- The accumulated counts of `getEmotionStats` hold, for every key,
the total occurrence count of that key over all entries. -/
theorem countOf_countEmotions (entries : List JournalEntry) (k : String) :
    countOf (Journal.countEmotions entries) k =
      (entries.map (fun en => (en.emotions.getD []).count k)).sum := by
  unfold Journal.countEmotions
  rw [countOf_foldl_entries]
  simp [countOf]

/-- `bumpCount` leaves the key sequence unchanged, or appends the new
key at the end. -/
theorem keys_bumpCount (counts : List (String × Nat)) (e : String) :
    (Journal.bumpCount counts e).map Prod.fst =
      (if e ∈ counts.map Prod.fst then counts.map Prod.fst
       else counts.map Prod.fst ++ [e]) := by
  induction counts with
  | nil => simp [Journal.bumpCount]
  | cons p rest ih =>
    obtain ⟨k, c⟩ := p
    by_cases hke : k = e
    · subst hke
      simp [Journal.bumpCount]
    · have hek : ¬ e = k := fun h => hke h.symm
      by_cases hmem : e ∈ rest.map Prod.fst
      · simp [Journal.bumpCount, hke, ih, hmem, hek]
      · simp [Journal.bumpCount, hke, ih, hmem, hek]

/-- `bumpCount` preserves distinctness of the keys. -/
theorem nodup_keys_bumpCount (counts : List (String × Nat)) (e : String)
    (h : (counts.map Prod.fst).Nodup) :
    ((Journal.bumpCount counts e).map Prod.fst).Nodup := by
  rw [keys_bumpCount]
  by_cases hmem : e ∈ counts.map Prod.fst
  · rw [if_pos hmem]; exact h
  · rw [if_neg hmem]
    apply List.Nodup.append h (List.nodup_singleton e)
    intro a ha hb
    rw [List.mem_singleton] at hb
    subst hb
    exact hmem ha

/-- Folding `bumpCount` preserves distinctness of the keys. -/
theorem nodup_keys_foldl_bumpCount (es : List String) :
    ∀ (counts : List (String × Nat)), (counts.map Prod.fst).Nodup →
      ((es.foldl Journal.bumpCount counts).map Prod.fst).Nodup := by
  induction es with
  | nil => intro counts h; simpa using h
  | cons a t ih =>
    intro counts h
    simp only [List.foldl_cons]
    exact ih _ (nodup_keys_bumpCount counts a h)

/-- The emotion-counts accumulator has distinct keys. -/
theorem nodup_keys_countEmotions (entries : List JournalEntry) :
    ((Journal.countEmotions entries).map Prod.fst).Nodup := by
  unfold Journal.countEmotions
  have haux : ∀ (counts : List (String × Nat)), (counts.map Prod.fst).Nodup →
      ((entries.foldl
        (fun cs en => (en.emotions.getD []).foldl Journal.bumpCount cs)
        counts).map Prod.fst).Nodup := by
    induction entries with
    | nil => intro counts h; simpa using h
    | cons a t ih =>
      intro counts h
      simp only [List.foldl_cons]
      exact ih _ (nodup_keys_foldl_bumpCount _ counts h)
  exact haux [] (by simp)

/-- In an association list with distinct keys, every member pair's
value is the lookup of its key. -/
theorem countOf_of_mem :
    ∀ (counts : List (String × Nat)), (counts.map Prod.fst).Nodup →
      ∀ (e : String) (c : Nat), (e, c) ∈ counts → countOf counts e = c := by
  intro counts
  induction counts with
  | nil => intro _ e c hmem; cases hmem
  | cons p rest ih =>
    intro hnd e c hmem
    obtain ⟨k, c'⟩ := p
    have hnd' : (k ∉ rest.map Prod.fst) ∧ (rest.map Prod.fst).Nodup := by
      rw [List.map_cons] at hnd
      exact List.nodup_cons.mp hnd
    rcases List.mem_cons.mp hmem with h | h
    · injection h with he hc
      subst he
      subst hc
      simp [countOf]
    · have hk : ¬ k = e := by
        intro hke
        subst hke
        exact hnd'.1 (List.mem_map_of_mem Prod.fst h)
      simp only [countOf, if_neg hk]
      exact ih hnd'.2 e c h

/-- On a duplicate-free list, the occurrence count of any key is its
membership indicator. -/
theorem count_nodup_mem (k : String) (es : List String) (hnd : es.Nodup) :
    es.count k = if k ∈ es then 1 else 0 := by
  induction es with
  | nil => simp
  | cons a t ih =>
    have hnd' := List.nodup_cons.mp hnd
    rw [List.count_cons, ih hnd'.2]
    by_cases hk : k = a
    · subst hk
      simp [List.mem_cons, hnd'.1]
    · have hba : (a == k) = false := beq_eq_false_iff_ne.mpr (fun h => hk h.symm)
      simp [List.mem_cons, hba, hk]

/-- With duplicate-free per-entry emotion lists, the summed occurrence
counts equal the number of entries containing the emotion. -/
theorem sum_count_eq_countP (entries : List JournalEntry) (k : String)
    (hnd : ∀ e ∈ entries, (e.emotions.getD []).Nodup) :
    (entries.map (fun en => (en.emotions.getD []).count k)).sum =
      entries.countP (fun en => decide (k ∈ en.emotions.getD [])) := by
  induction entries with
  | nil => rfl
  | cons a t ih =>
    simp only [List.map_cons, List.sum_cons, List.countP_cons]
    rw [ih (fun e he => hnd e (List.mem_cons_of_mem a he)),
        count_nodup_mem k _ (hnd a (List.mem_cons_self a t))]
    by_cases hmem : k ∈ a.emotions.getD []
    · rw [if_pos hmem, if_pos (decide_eq_true hmem)]
      omega
    · rw [if_neg hmem, if_neg (by simpa using hmem)]
      omega

/-- The emotion statistics are sorted by non-increasing count. -/
theorem pairwise_getEmotionStats (entries : List JournalEntry) :
    (Journal.getEmotionStats entries).Pairwise
      (fun p q : String × Nat => q.2 ≤ p.2) := by
  unfold Journal.getEmotionStats
  have hs : ((Journal.countEmotions entries).mergeSort
      (fun p q => decide (q.2 ≤ p.2))).Pairwise
      (fun p q : String × Nat => decide (q.2 ≤ p.2) = true) := by
    apply List.sorted_mergeSort
    · intro a b c hab hbc
      simp only [decide_eq_true_eq] at *
      omega
    · intro a b
      rcases Nat.le_total b.2 a.2 with h | h
      · simp [h]
      · simp [h]
  exact List.Pairwise.sublist (List.take_sublist 6 _)
    (hs.imp (fun h => of_decide_eq_true h))

/-- **C9.** When every entry's emotion list is duplicate-free (the data
model declares `emotions` a set), `getEmotionStats` returns at most 6
`(emotion, count)` pairs, each count being the number of entries whose
emotions contain that emotion, sorted in non-increasing order of
count. -/
theorem emotion_stats_spec (entries : List JournalEntry)
    (hnd : ∀ e ∈ entries, (e.emotions.getD []).Nodup) :
    (Journal.getEmotionStats entries).length ≤ 6 ∧
    (∀ p ∈ Journal.getEmotionStats entries,
      p.2 = entries.countP (fun en => decide (p.1 ∈ en.emotions.getD []))) ∧
    (Journal.getEmotionStats entries).Pairwise
      (fun p q : String × Nat => q.2 ≤ p.2) := by
  refine ⟨?_, ?_, pairwise_getEmotionStats entries⟩
  · unfold Journal.getEmotionStats
    exact List.length_take_le 6 _
  · intro p hp
    have hp1 : p ∈ Journal.countEmotions entries := by
      unfold Journal.getEmotionStats at hp
      exact List.mem_mergeSort.mp ((List.take_sublist 6 _).subset hp)
    obtain ⟨e, c⟩ := p
    have hcount := countOf_of_mem (Journal.countEmotions entries)
      (nodup_keys_countEmotions entries) e c hp1
    have h2 := countOf_countEmotions entries e
    rw [hcount] at h2
    rw [sum_count_eq_countP entries e hnd] at h2
    simpa using h2

/-- Witness for C9 on two concrete entries sharing an emotion. -/
theorem emotion_stats_spec_witness :
    (Journal.getEmotionStats [entryJ1, entryJ2]).length ≤ 6 ∧
    (∀ p ∈ Journal.getEmotionStats [entryJ1, entryJ2],
      p.2 = [entryJ1, entryJ2].countP
        (fun en => decide (p.1 ∈ en.emotions.getD []))) ∧
    (Journal.getEmotionStats [entryJ1, entryJ2]).Pairwise
      (fun p q : String × Nat => q.2 ≤ p.2) :=
  emotion_stats_spec [entryJ1, entryJ2] (by decide)
